import Mathlib

/-!
Shallow embedding of the `copy_confirmer` crate (src/lib.rs, src/checksum.rs,
src/copcon_error.rs): a directory-comparison engine that hashes every file under
a source tree and checks that each hash also occurs under at least one
destination tree.

Concurrency is abstracted away exactly at the channel boundary: the worker pool
and mpsc channel deliver, per phase, a list of `(path, io-result-of-hash)`
tuples (`HashResult` in the source); the pool's sticky panic counter is an
input observed at the two check points in `compare`.  All aggregation logic
(`_enqueue_all_hashes_src`, the two drain loops, the final classification,
`get_excluded_paths`, `is_path_excluded`, `get_blake2_checksum`) is translated
directly from the Rust source.
-/

/-- Model of `std::io::Error` as carried through `ConfirmerError::from`:
only its display string is ever used by the library. -/
structure IoErr where
  msg : String
deriving DecidableEq

/-- Model of `std::ffi::OsString`: a platform path that either is valid UTF-8
(`valid s`, where `to_str` yields `s`) or is not (`invalid id`, where `to_str`
returns `None`; `id` distinguishes distinct non-UTF-8 paths). -/
inductive OsString where
  | valid (s : String)
  | invalid (id : Nat)
deriving DecidableEq

/-- The textual form of a path, `OsStr::to_str`. -/
def OsString.toStr : OsString → Option String
  | .valid s => some s
  | .invalid _ => none

/-- The `ConfirmerError` struct of src/copcon_error.rs: a message string.
`From<io::Error>` maps an io error to its display string. -/
structure ConfirmerError where
  msg : String
deriving DecidableEq

/-- The `ExcludePattern` enum of src/lib.rs. -/
inductive ExcludePattern where
  | MatchPathStart (s : String)
  | MatchEverywhere (s : String)
deriving DecidableEq

/-- The `FileFound` struct of src/lib.rs. -/
structure FileFound where
  src_paths : List OsString
  dest_paths : List OsString
deriving DecidableEq

/-- The `ConfirmerResult` enum of src/lib.rs.  The Rust `Ok` variant holds a
`HashMap<String, FileFound>`; the map is modelled as an association list whose
iteration order stands in for the hash map's bucket iteration order. -/
inductive ConfirmerResult where
  | Ok (found : List (String × FileFound))
  | MissingFiles (paths : List OsString)
deriving DecidableEq

/-- A drained channel element, the `HashResult` type alias of src/lib.rs:
`(OsString, io::Result<String>)`. -/
abbrev HashResult := OsString × Except IoErr String

deriving instance DecidableEq for Except

/-- Decides whether `pat` is a prefix of `l` (Rust `str::starts_with`,
character-wise). -/
def pfxOf : List Char → List Char → Bool
  | [], _ => true
  | _ :: _, [] => false
  | a :: as, b :: bs => a == b && pfxOf as bs

/-- Decides whether `pat` occurs contiguously inside `l`
(Rust `str::contains`). -/
def subOf (pat : List Char) : List Char → Bool
  | [] => pfxOf pat []
  | b :: bs => pfxOf pat (b :: bs) || subOf pat bs

/-- Rust `path_str.starts_with(part)`. -/
def strStarts (s part : String) : Bool := pfxOf part.data s.data

/-- Rust `path_str.contains(part)`. -/
def strContains (s part : String) : Bool := subOf part.data s.data

/-- One arm of the match inside `is_path_excluded`. -/
def patternMatches (s : String) : ExcludePattern → Bool
  | .MatchPathStart part => strStarts s part
  | .MatchEverywhere part => strContains s part

/-- The free function `is_path_excluded` of src/lib.rs.  A non-UTF-8 path makes
the Rust code panic via `.expect("Could not decode path string.")`; the panic
is modelled as `Except.error` carrying the expect message. -/
def is_path_excluded (path : OsString) (excluded_patterns : List ExcludePattern) :
    Except String Bool :=
  match path.toStr with
  | none => .error "Could not decode path string."
  | some s => .ok (excluded_patterns.any (patternMatches s))

/-- The filtering loop of `_enqueue_all_hashes_src` (src/lib.rs lines 320-347)
applied to the regular files discovered under the source root, in walk order.
Returns the enqueued paths and the excluded paths, or the panic message when
`is_path_excluded` panics.  The Rust guard is
`!self.excluded_pattern.is_empty() && is_path_excluded(..)`, so with an empty
pattern list `is_path_excluded` is never entered. -/
def enqueueSrc (pats : List ExcludePattern) :
    List OsString → Except String (List OsString × List OsString)
  | [] => .ok ([], [])
  | p :: rest =>
    if pats.isEmpty then
      (enqueueSrc pats rest).map (fun qe => (p :: qe.1, qe.2))
    else
      match is_path_excluded p pats with
      | .error m => .error m
      | .ok true => (enqueueSrc pats rest).map (fun qe => (qe.1, p :: qe.2))
      | .ok false => (enqueueSrc pats rest).map (fun qe => (p :: qe.1, qe.2))

/-- The enqueue loop of `_enqueue_all_hashes` (src/lib.rs lines 296-311), used
for destination roots: every discovered regular file is enqueued; the exclusion
patterns are not consulted at all. -/
def enqueueDest (files : List OsString) : List OsString := files

/-- Association-list model of `HashMap<String, V>`; list order stands in for
the map's iteration order. -/
abbrev HMap (V : Type) := List (String × V)

/-- Rust `map.get(&h)` / the lookup half of `map.remove(&h)`. -/
def hmGet (m : HMap V) (h : String) : Option V :=
  (m.find? (fun kv => kv.1 == h)).map Prod.snd

/-- Keys of the map, in iteration order. -/
def hmKeys (m : HMap V) : List String := m.map Prod.fst

/-- The source-phase update
`missing_files.entry(hash).and_modify(|vec| vec.push(path)).or_insert(vec![path])`
(src/lib.rs lines 224-227). -/
def addToPending (m : HMap (List OsString)) (h : String) (p : OsString) :
    HMap (List OsString) :=
  if (m.find? (fun kv => kv.1 == h)).isSome then
    m.map (fun kv => if kv.1 == h then (kv.1, kv.2 ++ [p]) else kv)
  else
    m ++ [(h, [p])]

/-- The source-phase drain loop (src/lib.rs lines 219-234): each `Ok` result is
folded into the pending index; the first `Err` result aborts with that error. -/
def drainSrc : List HashResult → HMap (List OsString) →
    Except IoErr (HMap (List OsString))
  | [], m => .ok m
  | (p, .ok h) :: rest, m => drainSrc rest (addToPending m h p)
  | (_, .error e) :: _, _ => .error e

/-- One destination-phase step (src/lib.rs lines 254-262):
`if let Some(src_paths) = missing_files.remove(&hash) { found_files.entry(hash)
.and_modify(|FileFound \x7b dest_paths, .. \x7d| dest_paths.push(dest_path))
.or_insert(FileFound \x7b src_paths, dest_paths: vec![dest_path] \x7d) }`. -/
def destStep (pf : HMap (List OsString) × HMap FileFound) (dest_path : OsString)
    (h : String) : HMap (List OsString) × HMap FileFound :=
  match hmGet pf.1 h with
  | none => pf
  | some src_paths =>
    (pf.1.filter (fun kv => !(kv.1 == h)),
     if (pf.2.find? (fun kv => kv.1 == h)).isSome then
       pf.2.map (fun kv =>
         if kv.1 == h then (kv.1, ⟨kv.2.src_paths, kv.2.dest_paths ++ [dest_path]⟩)
         else kv)
     else
       pf.2 ++ [(h, ⟨src_paths, [dest_path]⟩)])

/-- The destination-phase drain loop (src/lib.rs lines 252-269). -/
def drainDest : List HashResult → HMap (List OsString) × HMap FileFound →
    Except IoErr (HMap (List OsString) × HMap FileFound)
  | [], pf => .ok pf
  | (dp, .ok h) :: rest, pf => drainDest rest (destStep pf dp h)
  | (_, .error e) :: _, _ => .error e

/-- The `CopyConfirmer` struct.  The pool and channel endpoints are abstracted
away (they carry no aggregation state); `excluded_paths` models the
`Cell<Vec<OsString>>` field. -/
structure CopyConfirmer where
  num_threads : Nat
  show_progress : Bool
  excluded_pattern : List ExcludePattern
  excluded_paths : List OsString
deriving DecidableEq

/-- `CopyConfirmer::new`. -/
def CopyConfirmer.new (num_threads : Nat) : CopyConfirmer :=
  { num_threads := num_threads, show_progress := false,
    excluded_pattern := [], excluded_paths := [] }

/-- `CopyConfirmer::with_progress_bar`. -/
def CopyConfirmer.with_progress_bar (cc : CopyConfirmer) : CopyConfirmer :=
  { cc with show_progress := true }

/-- `CopyConfirmer::add_excluded_pattern`. -/
def CopyConfirmer.add_excluded_pattern (cc : CopyConfirmer)
    (exclude : ExcludePattern) : CopyConfirmer :=
  { cc with excluded_pattern := cc.excluded_pattern ++ [exclude] }

/-- The environment of one `compare` call: the regular files discovered under
the source root in walk order, and — at the channel boundary — the pool panic
counter observed at each of the two check points together with the tuples
drained from the channel in each phase (arrival order is arbitrary, so the
lists are inputs). -/
structure RunEnv where
  srcFiles : List OsString
  panicCount1 : Nat
  srcResults : List HashResult
  panicCount2 : Nat
  destResults : List HashResult

/-- Outcome of one `compare` call: a returned `Result` (either variant), or a
process abort caused by the `.expect` panic inside `is_path_excluded`. -/
inductive RunOutcome where
  | ok (r : ConfirmerResult)
  | err (e : ConfirmerError)
  | panicked (msg : String)
deriving DecidableEq

/-- The message of the generic worker-fault error
(src/lib.rs lines 216 and 248). -/
def workerFaultMsg : String := "A panic occured while calculating hashes."

/-- Everything `compare` does after `_enqueue_all_hashes_src` has succeeded:
the two panic-count checks, the two drains, and the final classification
(src/lib.rs lines 214-277).  Note this part reads only the channel and the
pool, never the engine's exclusion state. -/
def classify (pf : HMap (List OsString) × HMap FileFound) : RunOutcome :=
  if pf.1.isEmpty then .ok (.Ok pf.2)
  else .ok (.MissingFiles ((pf.1.map Prod.snd).flatten))

/-- The destination half of the aggregation (src/lib.rs lines 246-277): the
second panic check, the destination drain, and the final classification. -/
def destPhase (env : RunEnv) (pending : HMap (List OsString)) : RunOutcome :=
  if env.panicCount2 > 0 then .err ⟨workerFaultMsg⟩
  else
    match drainDest env.destResults (pending, []) with
    | .error e => .err ⟨e.msg⟩
    | .ok pf => classify pf

def aggregate (env : RunEnv) : RunOutcome :=
  if env.panicCount1 > 0 then .err ⟨workerFaultMsg⟩
  else
    match drainSrc env.srcResults [] with
    | .error e => .err ⟨e.msg⟩
    | .ok pending => destPhase env pending

/-- `CopyConfirmer::compare` (src/lib.rs lines 183-277).  On the enqueue panic
the process aborts before the `Cell` update at lines 205-207, so the engine
state is unchanged; otherwise the excluded files of this walk are appended
(`take`/`append`/`set`) to the stored `excluded_paths` before any drain. -/
def CopyConfirmer.compare (cc : CopyConfirmer) (env : RunEnv) :
    RunOutcome × CopyConfirmer :=
  match enqueueSrc cc.excluded_pattern env.srcFiles with
  | .error m => (.panicked m, cc)
  | .ok qe =>
    (aggregate env, { cc with excluded_paths := cc.excluded_paths ++ qe.2 })

/-- `CopyConfirmer::get_excluded_paths` (src/lib.rs lines 282-287), modelling
the `Cell` dance literally: `take` empties the cell, the value is cloned, and
`set` puts the original back. -/
def CopyConfirmer.get_excluded_paths (cc : CopyConfirmer) :
    List OsString × CopyConfirmer :=
  let ex_paths := cc.excluded_paths
  let taken := { cc with excluded_paths := [] }
  let result := ex_paths
  let restored := { taken with excluded_paths := ex_paths }
  (result, restored)

/-- All source paths held across the buckets of a pending index, in bucket
iteration order then insertion order (`missing_files.into_values().flatten()`). -/
def pendingPaths (m : HMap (List OsString)) : List OsString :=
  (m.map Prod.snd).flatten

/-- All source paths recorded across a found index. -/
def foundSrcPaths (f : HMap FileFound) : List OsString :=
  (f.map (fun kv => kv.2.src_paths)).flatten

/-- All destination paths recorded across a found index. -/
def foundDestPaths (f : HMap FileFound) : List OsString :=
  (f.map (fun kv => kv.2.dest_paths)).flatten

/-- Hasher update: the `blake2` crate's `Digest::update` absorbs bytes; the
absorbed state is modelled as the sequence of bytes absorbed so far, which is
exactly the information the streaming interface is a function of. -/
def hasherUpdate (st : List Nat) (chunk : List Nat) : List Nat := st ++ chunk

/-- Modelled from the spec: the Blake2b-512 compression core lives in the
external `blake2` crate, not in this repository.  It is modelled as a fixed
deterministic function from the absorbed byte sequence to a 64-byte (512-bit)
digest, which is the contract the spec states ("a fixed-length,
collision-resistant digest (512-bit class) of a file's full byte content"). -/
def blake2Final (msg : List Nat) : List Nat :=
  (List.range 64).map
    (fun i => msg.foldl (fun a b => (a * 131 + b % 256 + 1) % 256) i)

/-- One lowercase hexadecimal digit. -/
def hexDigitChar (n : Nat) : Char :=
  if n < 10 then Char.ofNat (48 + n) else Char.ofNat (87 + n)

/-- Two-digit lowercase hexadecimal rendering of one byte, the per-byte
behaviour of Rust's `format!("\x7b:x\x7d", digest)`. -/
def byteToHex (b : Nat) : List Char := [hexDigitChar (b / 16), hexDigitChar (b % 16)]

/-- Lowercase hexadecimal string of a byte sequence. -/
def toLowerHex (bs : List Nat) : String := String.mk ((bs.map byteToHex).flatten)

/-- The read loop of `get_blake2_checksum` (src/checksum.rs lines 21-27): each
`read` either fails (aborting with the io error), returns `0` read bytes
(breaking the loop), or returns a chunk that is absorbed into the hasher. -/
def readLoop : List (Except IoErr (List Nat)) → List Nat → Except IoErr (List Nat)
  | [], st => .ok st
  | .error e :: _, _ => .error e
  | .ok c :: rest, st => if c.isEmpty then .ok st else readLoop rest (hasherUpdate st c)

/-- `get_blake2_checksum` (src/checksum.rs lines 15-31): opening the file may
fail; then the file is streamed through the hasher in chunks of at most 1024
bytes (the successive `read` return values are the `reads` input) and the
digest is rendered as lowercase hex. -/
def get_blake2_checksum (openRes : Except IoErr Unit)
    (reads : List (Except IoErr (List Nat))) : Except IoErr String :=
  match openRes with
  | .error e => .error e
  | .ok _ => (readLoop reads []).map (fun msg => toLowerHex (blake2Final msg))

/-- The successive `read` return values a real file of content `content`
produces: successful non-empty chunks of at most the 1024-byte buffer size
whose concatenation is the full content (the loop then stops at the final
zero-byte read, which is the end of the `reads` prefix we model). -/
def ChunkingOf (content : List Nat) (reads : List (Except IoErr (List Nat))) : Prop :=
  ∃ chunks : List (List Nat),
    (∀ c ∈ chunks, c ≠ [] ∧ c.length ≤ 1024) ∧
    chunks.flatten = content ∧ reads = chunks.map Except.ok

/-- Boolean characterisation of the exclusion guard of
`_enqueue_all_hashes_src`: a path is filtered out iff the pattern list is
non-empty and `is_path_excluded` answers true (a panicking path never reaches
either output list, so its value here is irrelevant to `enqueueSrc_filter`). -/
def exclTest (pats : List ExcludePattern) (p : OsString) : Bool :=
  !pats.isEmpty &&
    match is_path_excluded p pats with
    | .ok b => b
    | .error _ => true

theorem enqueueSrc_filter {pats : List ExcludePattern} :
    ∀ {files q ex}, enqueueSrc pats files = .ok (q, ex) →
      q = files.filter (fun p => !exclTest pats p) ∧
      ex = files.filter (fun p => exclTest pats p) := by
  intro files
  induction files with
  | nil =>
    intro q ex h
    simp only [enqueueSrc, Except.ok.injEq, Prod.mk.injEq] at h
    simp [← h.1, ← h.2]
  | cons p rest ih =>
    intro q ex h
    cases hrec : enqueueSrc pats rest with
    | error m =>
      by_cases hemp : pats.isEmpty
      · simp [enqueueSrc, hemp, hrec, Except.map] at h
      · cases hpe : is_path_excluded p pats with
        | error s => simp [enqueueSrc, hemp, hpe] at h
        | ok b => cases b <;> simp [enqueueSrc, hemp, hpe, hrec, Except.map] at h
    | ok qe =>
      obtain ⟨q1, e1⟩ := qe
      have hih := ih hrec
      by_cases hemp : pats.isEmpty
      · have hpv : exclTest pats p = false := by simp [exclTest, hemp]
        simp [enqueueSrc, hemp, hrec, Except.map] at h
        obtain ⟨hq, he⟩ := h
        subst hq he
        simp [List.filter_cons, hpv, hih.1, hih.2]
      · cases hpe : is_path_excluded p pats with
        | error s => simp [enqueueSrc, hemp, hpe] at h
        | ok b =>
          have hpv : exclTest pats p = b := by simp [exclTest, hemp, hpe]
          cases b with
          | true =>
            simp [enqueueSrc, hemp, hpe, hrec, Except.map] at h
            obtain ⟨hq, he⟩ := h
            subst hq he
            simp [List.filter_cons, hpv, hih.1, hih.2]
          | false =>
            simp [enqueueSrc, hemp, hpe, hrec, Except.map] at h
            obtain ⟨hq, he⟩ := h
            subst hq he
            simp [List.filter_cons, hpv, hih.1, hih.2]

theorem hmKeys_mapAdd (m : HMap (List OsString)) (h : String) (p : OsString) :
    hmKeys (m.map (fun kv => if kv.1 == h then (kv.1, kv.2 ++ [p]) else kv)) =
      hmKeys m := by
  simp only [hmKeys, List.map_map]
  apply List.map_congr_left
  intro kv _
  by_cases hk : kv.1 = h <;> simp [hk]

theorem find?_none_not_mem_keys {m : HMap V} {h : String}
    (hf : m.find? (fun kv => kv.1 == h) = none) : h ∉ hmKeys m := by
  intro hmem
  obtain ⟨kv, hkv, hfst⟩ := List.mem_map.mp hmem
  have := List.find?_eq_none.mp hf kv hkv
  simp [hfst] at this

theorem addToPending_keys_nodup {m : HMap (List OsString)} {h : String}
    {p : OsString} (hnd : (hmKeys m).Nodup) :
    (hmKeys (addToPending m h p)).Nodup := by
  unfold addToPending
  cases hf : m.find? (fun kv => kv.1 == h) with
  | some kv0 =>
    rw [Option.isSome_some, if_pos rfl, hmKeys_mapAdd]
    exact hnd
  | none =>
    have hnm := find?_none_not_mem_keys hf
    simp only [Option.isSome_none, Bool.false_eq_true, if_false, hmKeys,
      List.map_append, List.map_cons, List.map_nil]
    rw [List.nodup_append]
    exact ⟨hnd, List.nodup_singleton h,
      by intro a ha hb; simp at hb; subst hb; exact hnm ha⟩

theorem pendingPaths_mapAdd_perm {h : String} {p : OsString} :
    ∀ {m : HMap (List OsString)}, (hmKeys m).Nodup →
      (m.find? (fun kv => kv.1 == h)).isSome →
      (pendingPaths
        (m.map (fun kv => if kv.1 == h then (kv.1, kv.2 ++ [p]) else kv))).Perm
        (pendingPaths m ++ [p]) := by
  intro m
  induction m with
  | nil => intro _ hf; simp at hf
  | cons kv rest ih =>
    intro hnd hf
    have hnd' : (hmKeys rest).Nodup := by
      simp only [hmKeys, List.map_cons, List.nodup_cons] at hnd
      exact hnd.2
    by_cases hk : kv.1 == h
    · have hkeq : kv.1 = h := by simpa using hk
      have hrest : ∀ kv' ∈ rest, kv'.1 ≠ h := by
        intro kv' hm heq
        simp only [hmKeys, List.map_cons, List.nodup_cons] at hnd
        exact hnd.1 (hkeq ▸ heq ▸ List.mem_map_of_mem Prod.fst hm)
      have hid : rest.map (fun kv => if kv.1 == h then (kv.1, kv.2 ++ [p]) else kv)
          = rest := by
        have := List.map_congr_left (l := rest)
          (f := fun kv => if kv.1 == h then (kv.1, kv.2 ++ [p]) else kv) (g := id)
          (by intro a ha; simp [hrest a ha])
        simpa using this
      simp only [List.map_cons, hk, if_true, hid, pendingPaths, List.map_cons,
        List.flatten_cons, List.append_assoc]
      exact List.Perm.append_left _ List.perm_append_comm
    · have hf' : (rest.find? (fun kv => kv.1 == h)).isSome := by
        rw [List.find?_cons_of_neg] at hf
        · exact hf
        · simp [hk]
      simp only [List.map_cons, hk, if_false, pendingPaths, List.map_cons,
        List.flatten_cons, List.append_assoc]
      exact List.Perm.append_left _ (ih hnd' hf')

theorem addToPending_perm {m : HMap (List OsString)} {h : String} {p : OsString}
    (hnd : (hmKeys m).Nodup) :
    (pendingPaths (addToPending m h p)).Perm (pendingPaths m ++ [p]) := by
  unfold addToPending
  cases hf : m.find? (fun kv => kv.1 == h) with
  | some kv0 =>
    rw [Option.isSome_some, if_pos rfl]
    exact pendingPaths_mapAdd_perm hnd (by rw [hf]; rfl)
  | none =>
    have hpp : pendingPaths (m ++ [(h, [p])]) = pendingPaths m ++ [p] := by
      simp [pendingPaths]
    simp only [Option.isSome_none, Bool.false_eq_true, if_false, hpp]
    exact List.Perm.refl _

theorem drainSrc_ok :
    ∀ {rs : List HashResult} {m m' : HMap (List OsString)},
      drainSrc rs m = .ok m' → (hmKeys m).Nodup →
      (hmKeys m').Nodup ∧
        (pendingPaths m').Perm (pendingPaths m ++ rs.map Prod.fst) := by
  intro rs
  induction rs with
  | nil =>
    intro m m' h hnd
    simp only [drainSrc, Except.ok.injEq] at h
    subst h
    refine ⟨hnd, ?_⟩
    simp
  | cons r rest ih =>
    intro m m' h hnd
    obtain ⟨p, res⟩ := r
    cases res with
    | error e => simp [drainSrc] at h
    | ok hsh =>
      simp only [drainSrc] at h
      have hnd2 := addToPending_keys_nodup (h := hsh) (p := p) hnd
      obtain ⟨hnd', hperm⟩ := ih h hnd2
      refine ⟨hnd', List.Perm.trans hperm ?_⟩
      have h2 := (addToPending_perm (m := m) (h := hsh) (p := p) hnd).append_right
        (rest.map Prod.fst)
      have h3 : (pendingPaths m ++ [p]) ++ rest.map Prod.fst
          = pendingPaths m ++ (((p, Except.ok hsh) : HashResult) :: rest).map Prod.fst := by
        simp
      exact h3 ▸ h2

theorem hmGet_subset_pendingPaths {m : HMap (List OsString)} {h : String}
    {v : List OsString} (hg : hmGet m h = some v) : ∀ x ∈ v, x ∈ pendingPaths m := by
  intro x hx
  cases hfind : m.find? (fun kv => kv.1 == h) with
  | none => rw [hmGet, hfind] at hg; simp at hg
  | some kv =>
    rw [hmGet, hfind] at hg
    simp only [Option.map_some', Option.some.injEq] at hg
    have hmem := List.mem_of_find?_eq_some hfind
    exact List.mem_flatten.mpr ⟨kv.2, List.mem_map_of_mem Prod.snd hmem, hg ▸ hx⟩

theorem pendingPaths_filter_subset {m : HMap (List OsString)}
    {pred : String × List OsString → Bool} :
    ∀ x, x ∈ pendingPaths (m.filter pred) → x ∈ pendingPaths m := by
  intro x hx
  simp only [pendingPaths, List.mem_flatten, List.mem_map] at hx ⊢
  obtain ⟨l, ⟨kv, hkv, hl⟩, hxl⟩ := hx
  exact ⟨l, ⟨kv, (List.filter_sublist m).mem hkv, hl⟩, hxl⟩

theorem filter_remove_perm {h : String} :
    ∀ {m : HMap (List OsString)} {v : List OsString},
      hmGet m h = some v → (hmKeys m).Nodup →
      (v ++ pendingPaths (m.filter (fun kv => !(kv.1 == h)))).Perm (pendingPaths m) := by
  intro m
  induction m with
  | nil => intro v hg _; simp [hmGet] at hg
  | cons kv rest ih =>
    intro v hg hnd
    have hndc := List.nodup_cons.mp (show (kv.1 :: hmKeys rest).Nodup from hnd)
    cases hk : kv.1 == h with
    | true =>
      have hfind : List.find? (fun kv => kv.1 == h) (kv :: rest) = some kv :=
        List.find?_cons_of_pos _ hk
      have hv : v = kv.2 := by
        rw [hmGet, hfind] at hg
        simp only [Option.map_some', Option.some.injEq] at hg
        exact hg.symm
      subst hv
      have hkeq : kv.1 = h := by simpa using hk
      have hpred : ∀ kv' ∈ rest, (!(kv'.1 == h)) = true := by
        intro kv' hm
        have hne : kv'.1 ≠ h := by
          intro heq
          exact hndc.1 (hkeq ▸ heq ▸ List.mem_map_of_mem Prod.fst hm)
        simpa using hne
      have hfr : rest.filter (fun kv => !(kv.1 == h)) = rest :=
        List.filter_eq_self.mpr hpred
      have hhd : (!(kv.1 == h)) = false := by rw [hk]; rfl
      simp only [List.filter_cons, hhd, if_false, hfr, pendingPaths, List.map_cons,
        List.flatten_cons]
      exact List.Perm.refl _
    | false =>
      have hfind : List.find? (fun kv => kv.1 == h) (kv :: rest)
          = List.find? (fun kv => kv.1 == h) rest :=
        List.find?_cons_of_neg _ (by simp [hk])
      have hg' : hmGet rest h = some v := by
        rw [hmGet, hfind] at hg
        exact hg
      have hhd : (!(kv.1 == h)) = true := by rw [hk]; rfl
      simp only [List.filter_cons, hhd, if_true, pendingPaths, List.map_cons,
        List.flatten_cons]
      have hih := ih hg' hndc.2
      have step1 : (v ++ (kv.2 ++ pendingPaths (rest.filter (fun kv => !(kv.1 == h))))).Perm
          (kv.2 ++ (v ++ pendingPaths (rest.filter (fun kv => !(kv.1 == h))))) := by
        rw [← List.append_assoc, ← List.append_assoc]
        exact List.perm_append_comm.append_right _
      exact step1.trans (List.Perm.append_left kv.2 hih)

theorem foundSrcPaths_mapDest (fnd : HMap FileFound) (h : String) (dp : OsString) :
    foundSrcPaths (fnd.map (fun kv =>
      if kv.1 == h then (kv.1, ⟨kv.2.src_paths, kv.2.dest_paths ++ [dp]⟩) else kv)) =
      foundSrcPaths fnd := by
  simp only [foundSrcPaths, List.map_map]
  apply congrArg
  apply List.map_congr_left
  intro kv _
  by_cases hk : kv.1 = h <;> simp [hk]

theorem foundSrcPaths_append (fnd : HMap FileFound) (e : String × FileFound) :
    foundSrcPaths (fnd ++ [e]) = foundSrcPaths fnd ++ e.2.src_paths := by
  simp [foundSrcPaths]

theorem foundDestPaths_append (fnd : HMap FileFound) (e : String × FileFound) :
    foundDestPaths (fnd ++ [e]) = foundDestPaths fnd ++ e.2.dest_paths := by
  simp [foundDestPaths]

theorem hmGet_mem_keys {m : HMap (List OsString)} {h : String}
    {v : List OsString} (hg : hmGet m h = some v) : h ∈ hmKeys m := by
  cases hfind : m.find? (fun kv => kv.1 == h) with
  | none => rw [hmGet, hfind] at hg; exact Option.noConfusion hg
  | some kv =>
    have hkeq : kv.1 = h := by simpa using List.find?_some hfind
    exact hkeq ▸ List.mem_map_of_mem Prod.fst (List.mem_of_find?_eq_some hfind)

theorem keys_filter_sublist (m : HMap (List OsString)) (pred : String × List OsString → Bool) :
    (hmKeys (m.filter pred)).Sublist (hmKeys m) :=
  List.Sublist.map Prod.fst (List.filter_sublist m)

theorem destStep_eq_some {pf : HMap (List OsString) × HMap FileFound}
    {dp : OsString} {h : String} {srcs : List OsString}
    (hg : hmGet pf.1 h = some srcs) :
    destStep pf dp h =
      (pf.1.filter (fun kv => !(kv.1 == h)),
       if (pf.2.find? (fun kv => kv.1 == h)).isSome then
         pf.2.map (fun kv =>
           if kv.1 == h then (kv.1, ⟨kv.2.src_paths, kv.2.dest_paths ++ [dp]⟩) else kv)
       else pf.2 ++ [(h, ⟨srcs, [dp]⟩)]) := by
  unfold destStep
  rw [hg]

theorem destStep_eq_none {pf : HMap (List OsString) × HMap FileFound}
    {dp : OsString} {h : String} (hg : hmGet pf.1 h = none) :
    destStep pf dp h = pf := by
  unfold destStep
  rw [hg]

theorem destStep_srcPaths {pf : HMap (List OsString) × HMap FileFound}
    {dp : OsString} {h : String} {x : OsString}
    (hx : x ∈ pendingPaths (destStep pf dp h).1 ∨ x ∈ foundSrcPaths (destStep pf dp h).2) :
    x ∈ pendingPaths pf.1 ∨ x ∈ foundSrcPaths pf.2 := by
  cases hg : hmGet pf.1 h with
  | none => rw [destStep_eq_none hg] at hx; exact hx
  | some srcs =>
    rw [destStep_eq_some hg] at hx
    rcases hx with hx | hx
    · exact Or.inl (pendingPaths_filter_subset x hx)
    · cases hf : (pf.2.find? (fun kv => kv.1 == h)).isSome with
      | true =>
        rw [hf, if_pos rfl, foundSrcPaths_mapDest] at hx
        exact Or.inr hx
      | false =>
        rw [hf] at hx
        simp only [Bool.false_eq_true, if_false, foundSrcPaths_append] at hx
        rcases List.mem_append.mp hx with hx | hx
        · exact Or.inr hx
        · exact Or.inl (hmGet_subset_pendingPaths hg x hx)

theorem foundDestPaths_mapDest_mem {fnd : HMap FileFound} {h : String}
    {dp x : OsString}
    (hx : x ∈ foundDestPaths (fnd.map (fun kv =>
      if kv.1 == h then (kv.1, ⟨kv.2.src_paths, kv.2.dest_paths ++ [dp]⟩) else kv))) :
    x ∈ foundDestPaths fnd ∨ x = dp := by
  simp only [foundDestPaths, List.map_map, List.mem_flatten, List.mem_map] at hx
  obtain ⟨l, ⟨kv, hkv, hl⟩, hxl⟩ := hx
  by_cases hk : kv.1 = h
  · have hl' : l = kv.2.dest_paths ++ [dp] := by
      simp [Function.comp, hk] at hl
      exact hl.symm
    subst hl'
    rcases List.mem_append.mp hxl with hx2 | hx2
    · exact Or.inl (List.mem_flatten.mpr ⟨kv.2.dest_paths,
        List.mem_map_of_mem (fun kv => kv.2.dest_paths) hkv, hx2⟩)
    · exact Or.inr (by simpa using hx2)
  · have hl' : l = kv.2.dest_paths := by
      simp [Function.comp, hk] at hl
      exact hl.symm
    subst hl'
    exact Or.inl (List.mem_flatten.mpr ⟨kv.2.dest_paths,
      List.mem_map_of_mem (fun kv => kv.2.dest_paths) hkv, hxl⟩)

theorem destStep_destPaths {pf : HMap (List OsString) × HMap FileFound}
    {dp : OsString} {h : String} {x : OsString}
    (hx : x ∈ foundDestPaths (destStep pf dp h).2) :
    x ∈ foundDestPaths pf.2 ∨ x = dp := by
  cases hg : hmGet pf.1 h with
  | none => rw [destStep_eq_none hg] at hx; exact Or.inl hx
  | some srcs =>
    rw [destStep_eq_some hg] at hx
    cases hf : (pf.2.find? (fun kv => kv.1 == h)).isSome with
    | true =>
      rw [hf, if_pos rfl] at hx
      exact foundDestPaths_mapDest_mem hx
    | false =>
      rw [hf] at hx
      simp only [Bool.false_eq_true, if_false, foundDestPaths_append] at hx
      rcases List.mem_append.mp hx with hx | hx
      · exact Or.inl hx
      · exact Or.inr (by simpa using hx)

theorem destStep_inv {pf : HMap (List OsString) × HMap FileFound}
    (dp : OsString) (h : String)
    (hnd : (hmKeys pf.1).Nodup)
    (hdisj : ∀ k, k ∈ hmKeys pf.1 → k ∉ hmKeys pf.2) :
    (hmKeys (destStep pf dp h).1).Nodup ∧
    (∀ k, k ∈ hmKeys (destStep pf dp h).1 → k ∉ hmKeys (destStep pf dp h).2) ∧
    (pendingPaths (destStep pf dp h).1 ++ foundSrcPaths (destStep pf dp h).2).Perm
      (pendingPaths pf.1 ++ foundSrcPaths pf.2) := by
  cases hg : hmGet pf.1 h with
  | none => rw [destStep_eq_none hg]; exact ⟨hnd, hdisj, List.Perm.refl _⟩
  | some srcs =>
    have hmemk : h ∈ hmKeys pf.1 := hmGet_mem_keys hg
    have hnotf : h ∉ hmKeys pf.2 := hdisj h hmemk
    have hfindf : pf.2.find? (fun kv => kv.1 == h) = none := by
      rw [List.find?_eq_none]
      intro kv hkv hbe
      exact hnotf ((show kv.1 = h by simpa using hbe) ▸
        List.mem_map_of_mem Prod.fst hkv)
    rw [destStep_eq_some hg, hfindf]
    simp only [Option.isSome_none, Bool.false_eq_true, if_false]
    have hsub := keys_filter_sublist pf.1 (fun kv => !(kv.1 == h))
    refine ⟨hnd.sublist hsub, ?_, ?_⟩
    · intro k hk
      have hkm : k ∈ hmKeys pf.1 := hsub.mem hk
      have hkne : k ≠ h := by
        obtain ⟨kv, hkv, hfst⟩ := List.mem_map.mp hk
        have := (List.mem_filter.mp hkv).2
        intro heq
        simp [hfst, heq] at this
      intro hkf
      have : hmKeys (pf.2 ++ [(h, ⟨srcs, [dp]⟩)]) = hmKeys pf.2 ++ [h] := by
        simp [hmKeys]
      rw [this] at hkf
      rcases List.mem_append.mp hkf with hkf | hkf
      · exact hdisj k hkm hkf
      · exact hkne (by simpa using hkf)
    · rw [foundSrcPaths_append]
      have hrem := filter_remove_perm (m := pf.1) (v := srcs) hg hnd
      rw [← List.append_assoc]
      refine List.Perm.trans List.perm_append_comm ?_
      rw [← List.append_assoc]
      exact hrem.append_right _

theorem drainDest_ok :
    ∀ {rs : List HashResult} {pf pf' : HMap (List OsString) × HMap FileFound},
      drainDest rs pf = .ok pf' →
      (hmKeys pf.1).Nodup → (∀ k, k ∈ hmKeys pf.1 → k ∉ hmKeys pf.2) →
      (pendingPaths pf'.1 ++ foundSrcPaths pf'.2).Perm
        (pendingPaths pf.1 ++ foundSrcPaths pf.2) := by
  intro rs
  induction rs with
  | nil =>
    intro pf pf' h _ _
    simp only [drainDest, Except.ok.injEq] at h
    subst h
    exact List.Perm.refl _
  | cons r rest ih =>
    intro pf pf' h hnd hdisj
    obtain ⟨dp, res⟩ := r
    cases res with
    | error e => simp [drainDest] at h
    | ok hsh =>
      simp only [drainDest] at h
      obtain ⟨hnd2, hdisj2, hperm2⟩ := destStep_inv dp hsh hnd hdisj
      exact (ih h hnd2 hdisj2).trans hperm2

theorem drainDest_srcPaths :
    ∀ {rs : List HashResult} {pf pf' : HMap (List OsString) × HMap FileFound},
      drainDest rs pf = .ok pf' → ∀ x,
      (x ∈ pendingPaths pf'.1 ∨ x ∈ foundSrcPaths pf'.2) →
      (x ∈ pendingPaths pf.1 ∨ x ∈ foundSrcPaths pf.2) := by
  intro rs
  induction rs with
  | nil =>
    intro pf pf' h x hx
    simp only [drainDest, Except.ok.injEq] at h
    subst h
    exact hx
  | cons r rest ih =>
    intro pf pf' h x hx
    obtain ⟨dp, res⟩ := r
    cases res with
    | error e => simp [drainDest] at h
    | ok hsh =>
      simp only [drainDest] at h
      exact destStep_srcPaths (ih h x hx)

theorem drainDest_destPaths :
    ∀ {rs : List HashResult} {pf pf' : HMap (List OsString) × HMap FileFound},
      drainDest rs pf = .ok pf' → ∀ x,
      x ∈ foundDestPaths pf'.2 →
      x ∈ foundDestPaths pf.2 ∨ x ∈ rs.map Prod.fst := by
  intro rs
  induction rs with
  | nil =>
    intro pf pf' h x hx
    simp only [drainDest, Except.ok.injEq] at h
    subst h
    exact Or.inl hx
  | cons r rest ih =>
    intro pf pf' h x hx
    obtain ⟨dp, res⟩ := r
    cases res with
    | error e => simp [drainDest] at h
    | ok hsh =>
      simp only [drainDest] at h
      rcases ih h x hx with hx2 | hx2
      · rcases destStep_destPaths hx2 with hx3 | hx3
        · exact Or.inl hx3
        · exact Or.inr (by simp [hx3])
      · exact Or.inr (by simp [hx2])

theorem readLoop_chunks :
    ∀ (chunks : List (List Nat)) (st : List Nat),
      (∀ c ∈ chunks, c ≠ []) →
      readLoop (chunks.map Except.ok) st = .ok (st ++ chunks.flatten) := by
  intro chunks
  induction chunks with
  | nil => intro st _; simp [readLoop]
  | cons c rest ih =>
    intro st hne
    have hc : c.isEmpty = false := by
      simpa [List.isEmpty_iff] using hne c (List.mem_cons_self c rest)
    simp only [List.map_cons, readLoop, hc, Bool.false_eq_true, if_false, hasherUpdate]
    rw [ih _ (fun x hx => hne x (List.mem_cons_of_mem c hx))]
    simp

theorem blake2Final_bytes {msg : List Nat} : ∀ x ∈ blake2Final msg, x < 256 := by
  have haux : ∀ (l : List Nat) (a : Nat), a < 256 →
      l.foldl (fun a b => (a * 131 + b % 256 + 1) % 256) a < 256 := by
    intro l
    induction l with
    | nil => intro a ha; simpa using ha
    | cons b rest ih =>
      intro a _
      exact ih _ (Nat.mod_lt _ (by norm_num))
  intro x hx
  simp only [blake2Final, List.mem_map, List.mem_range] at hx
  obtain ⟨i, hi, hfold⟩ := hx
  exact hfold ▸ haux _ i (by omega)

theorem blake2Final_length (msg : List Nat) : (blake2Final msg).length = 64 := by
  simp [blake2Final]

/-- Characters allowed in a lowercase hexadecimal rendering. -/
def isLowerHexDigit (c : Char) : Bool :=
  (decide ((Char.ofNat 48) ≤ c) && decide (c ≤ Char.ofNat 57)) ||
  (decide ((Char.ofNat 97) ≤ c) && decide (c ≤ Char.ofNat 102))

theorem hexDigitChar_valid : ∀ n, n < 16 → isLowerHexDigit (hexDigitChar n) = true := by
  decide

theorem toLowerHex_length (bs : List Nat) : (toLowerHex bs).length = 2 * bs.length := by
  induction bs with
  | nil => rfl
  | cons b rest ih =>
    simp only [toLowerHex, List.map_cons, List.flatten_cons] at ih ⊢
    simp only [String.length] at ih ⊢
    simp [byteToHex] at ih ⊢
    omega

theorem toLowerHex_chars {bs : List Nat} (hb : ∀ b ∈ bs, b < 256) :
    ∀ c ∈ (toLowerHex bs).data, isLowerHexDigit c = true := by
  intro c hc
  simp only [toLowerHex] at hc
  have hc2 : c ∈ (bs.map byteToHex).flatten := hc
  obtain ⟨l, hl, hcl⟩ := List.mem_flatten.mp hc2
  obtain ⟨b, hbm, hbl⟩ := List.mem_map.mp hl
  subst hbl
  have hblt := hb b hbm
  simp only [byteToHex, List.mem_cons, List.not_mem_nil, or_false] at hcl
  rcases hcl with h1 | h1 <;> subst h1
  · exact hexDigitChar_valid (b / 16) (by omega)
  · exact hexDigitChar_valid (b % 16) (by omega)

theorem compare_eq_ok {cc : CopyConfirmer} {env : RunEnv} {q ex : List OsString}
    (he : enqueueSrc cc.excluded_pattern env.srcFiles = .ok (q, ex)) :
    cc.compare env =
      (aggregate env, { cc with excluded_paths := cc.excluded_paths ++ ex }) := by
  unfold CopyConfirmer.compare
  rw [he]

theorem compare_eq_panicked {cc : CopyConfirmer} {env : RunEnv} {m : String}
    (he : enqueueSrc cc.excluded_pattern env.srcFiles = .error m) :
    cc.compare env = (.panicked m, cc) := by
  unfold CopyConfirmer.compare
  rw [he]

theorem compare_outcome_only_pattern {cc cc' : CopyConfirmer} (env : RunEnv)
    (hp : cc.excluded_pattern = cc'.excluded_pattern) :
    (cc.compare env).1 = (cc'.compare env).1 := by
  unfold CopyConfirmer.compare
  rw [hp]
  cases enqueueSrc cc'.excluded_pattern env.srcFiles <;> rfl

theorem compare_preserves_pattern (cc : CopyConfirmer) (env : RunEnv) :
    ((cc.compare env).2).excluded_pattern = cc.excluded_pattern := by
  unfold CopyConfirmer.compare
  cases enqueueSrc cc.excluded_pattern env.srcFiles <;> rfl

theorem aggregate_ok_src {env : RunEnv} {pending : HMap (List OsString)}
    (h1 : env.panicCount1 = 0)
    (hds : drainSrc env.srcResults [] = .ok pending) :
    aggregate env = destPhase env pending := by
  unfold aggregate
  rw [h1, hds]
  rfl

theorem destPhase_ok {env : RunEnv} {pending : HMap (List OsString)}
    {pf : HMap (List OsString) × HMap FileFound}
    (h2 : env.panicCount2 = 0)
    (hdd : drainDest env.destResults (pending, []) = .ok pf) :
    destPhase env pending = classify pf := by
  unfold destPhase
  rw [h2, hdd]
  rfl

theorem destPhase_panic {env : RunEnv} {pending : HMap (List OsString)}
    (h2 : env.panicCount2 > 0) :
    destPhase env pending = .err ⟨workerFaultMsg⟩ := by
  unfold destPhase
  rw [if_pos h2]

theorem destPhase_err {env : RunEnv} {pending : HMap (List OsString)} {e : IoErr}
    (h2 : env.panicCount2 = 0)
    (hdd : drainDest env.destResults (pending, []) = .error e) :
    destPhase env pending = .err ⟨e.msg⟩ := by
  unfold destPhase
  rw [h2, hdd]
  rfl

theorem aggregate_eq {env : RunEnv} {pending : HMap (List OsString)}
    {pf : HMap (List OsString) × HMap FileFound}
    (h1 : env.panicCount1 = 0) (h2 : env.panicCount2 = 0)
    (hds : drainSrc env.srcResults [] = .ok pending)
    (hdd : drainDest env.destResults (pending, []) = .ok pf) :
    aggregate env =
      if pf.1.isEmpty then .ok (.Ok pf.2)
      else .ok (.MissingFiles ((pf.1.map Prod.snd).flatten)) := by
  rw [aggregate_ok_src h1 hds, destPhase_ok h2 hdd]
  rfl

theorem aggregate_panic1 {env : RunEnv} (h1 : env.panicCount1 > 0) :
    aggregate env = .err ⟨workerFaultMsg⟩ := by
  unfold aggregate
  rw [if_pos h1]

theorem aggregate_panic2 {env : RunEnv} {pending : HMap (List OsString)}
    (h1 : env.panicCount1 = 0)
    (hds : drainSrc env.srcResults [] = .ok pending)
    (h2 : env.panicCount2 > 0) :
    aggregate env = .err ⟨workerFaultMsg⟩ := by
  rw [aggregate_ok_src h1 hds, destPhase_panic h2]

theorem aggregate_err_src {env : RunEnv} {e : IoErr}
    (h1 : env.panicCount1 = 0)
    (hds : drainSrc env.srcResults [] = .error e) :
    aggregate env = .err ⟨e.msg⟩ := by
  unfold aggregate
  rw [h1, hds]
  rfl

theorem aggregate_err_dest {env : RunEnv} {pending : HMap (List OsString)} {e : IoErr}
    (h1 : env.panicCount1 = 0) (h2 : env.panicCount2 = 0)
    (hds : drainSrc env.srcResults [] = .ok pending)
    (hdd : drainDest env.destResults (pending, []) = .error e) :
    aggregate env = .err ⟨e.msg⟩ := by
  rw [aggregate_ok_src h1 hds, destPhase_err h2 hdd]

theorem aggregate_not_panicked (env : RunEnv) (m : String) :
    aggregate env ≠ .panicked m := by
  unfold aggregate destPhase classify
  by_cases h1 : env.panicCount1 > 0
  · simp [h1]
  · simp only [h1, if_false]
    cases drainSrc env.srcResults [] with
    | error e => simp
    | ok pending =>
      by_cases h2 : env.panicCount2 > 0
      · simp [h2]
      · simp only [h2, if_false]
        cases drainDest env.destResults (pending, []) with
        | error e => simp
        | ok pf => by_cases hemp : pf.1.isEmpty <;> simp [hemp]

/-- The first error carried by a drained result list, in drain order. -/
def firstErr : List HashResult → Option IoErr
  | [] => none
  | (_, .ok _) :: rest => firstErr rest
  | (_, .error e) :: _ => some e

theorem firstErr_drainSrc :
    ∀ {rs : List HashResult} {e : IoErr}, firstErr rs = some e →
      ∀ m, drainSrc rs m = .error e := by
  intro rs
  induction rs with
  | nil => intro e h m; simp [firstErr] at h
  | cons r rest ih =>
    intro e h m
    obtain ⟨p, res⟩ := r
    cases res with
    | ok hsh =>
      simp only [firstErr] at h
      simp only [drainSrc]
      exact ih h _
    | error e' =>
      simp only [firstErr, Option.some.injEq] at h
      subst h
      rfl

theorem firstErr_drainDest :
    ∀ {rs : List HashResult} {e : IoErr}, firstErr rs = some e →
      ∀ pf, drainDest rs pf = .error e := by
  intro rs
  induction rs with
  | nil => intro e h pf; simp [firstErr] at h
  | cons r rest ih =>
    intro e h pf
    obtain ⟨p, res⟩ := r
    cases res with
    | ok hsh =>
      simp only [firstErr] at h
      simp only [drainDest]
      exact ih h _
    | error e' =>
      simp only [firstErr, Option.some.injEq] at h
      subst h
      rfl

theorem enqueueSrc_error_of_invalid {pats : List ExcludePattern} :
    ∀ {files : List OsString}, pats ≠ [] → (∃ n, OsString.invalid n ∈ files) →
      enqueueSrc pats files = .error "Could not decode path string." := by
  intro files
  induction files with
  | nil => intro _ h; simp at h
  | cons p rest ih =>
    intro hne ⟨n, hmem⟩
    have hemp : pats.isEmpty = false := by
      cases pats with
      | nil => exact absurd rfl hne
      | cons a l => rfl
    cases p with
    | invalid k =>
      simp [enqueueSrc, hemp, is_path_excluded, OsString.toStr]
    | valid s =>
      have hrest : ∃ n, OsString.invalid n ∈ rest := by
        rcases List.mem_cons.mp hmem with h | h
        · exact absurd h (by simp)
        · exact ⟨n, h⟩
      have := ih hne hrest
      simp only [enqueueSrc, hemp, Bool.false_eq_true, if_false, is_path_excluded,
        OsString.toStr]
      cases hb : (pats.any (patternMatches s)) <;> simp [this, Except.map]

theorem enqueueSrc_empty_pats_ok :
    ∀ (files : List OsString), enqueueSrc [] files = .ok (files, []) := by
  intro files
  induction files with
  | nil => rfl
  | cons p rest ih => simp [enqueueSrc, ih, Except.map]

/-- C10: `get_excluded_paths` is a non-destructive observer: it returns a copy
of the stored excluded-paths list, leaves the engine state exactly as it was
(the `Cell` take/set round-trip restores the original value), so two
consecutive calls with no intervening `compare` return equal lists and no
other engine field is modified. -/
theorem C10_get_excluded_paths_observer (cc : CopyConfirmer) :
    cc.get_excluded_paths = (cc.excluded_paths, cc) ∧
    (cc.get_excluded_paths.2.get_excluded_paths).1 = cc.get_excluded_paths.1 ∧
    cc.get_excluded_paths.2 = cc :=
  ⟨rfl, rfl, rfl⟩

/-- C1 (code bug): the claim says every destination file bearing a pending
checksum appends its path to `FoundIndex[checksum].dest_paths`, so two
destination files with the same checksum yield two `dest_paths` entries.  The
code's `and_modify` append is dead: the whole update is guarded by
`if let Some(..) = missing_files.remove(&hash)`, which can succeed at most once
per checksum, so the second destination occurrence is silently dropped and
`dest_paths` keeps exactly one entry.  This theorem evaluates `compare` at the
failing input: one source file with hash h1, two destination files with hash
h1 — the result records only the first destination path. -/
theorem C1_second_dest_path_dropped :
    ((CopyConfirmer.new 1).compare
      { srcFiles := [.valid "dir_A/a.txt"], panicCount1 := 0,
        srcResults := [(.valid "dir_A/a.txt", .ok "h1")], panicCount2 := 0,
        destResults := [(.valid "dir_B/a.txt", .ok "h1"),
                        (.valid "dir_C/a.txt", .ok "h1")] }).1
      = .ok (.Ok [("h1", ⟨[.valid "dir_A/a.txt"], [.valid "dir_B/a.txt"]⟩)]) ∧
    ((CopyConfirmer.new 1).compare
      { srcFiles := [.valid "dir_A/a.txt"], panicCount1 := 0,
        srcResults := [(.valid "dir_A/a.txt", .ok "h1")], panicCount2 := 0,
        destResults := [(.valid "dir_B/a.txt", .ok "h1"),
                        (.valid "dir_C/a.txt", .ok "h1")] }).1
      ≠ .ok (.Ok [("h1", ⟨[.valid "dir_A/a.txt"],
          [.valid "dir_B/a.txt", .valid "dir_C/a.txt"]⟩)]) := by
  exact ⟨by decide, by decide⟩

/-- C2 counterexample: with one exclusion pattern and the same source file,
after a second `compare` call `get_excluded_paths` does not return exactly the
paths skipped during the most recent call (which would be the single path):
the `take`/`append`/`set` sequence at src/lib.rs lines 205-207 accumulates
across calls, so the path is reported twice. -/
theorem C2_excluded_accumulation_counterexample :
    (((((CopyConfirmer.new 1).add_excluded_pattern
          (.MatchEverywhere "bar")).compare
        { srcFiles := [.valid "a/bar.txt"], panicCount1 := 0, srcResults := [],
          panicCount2 := 0, destResults := [] }).2.compare
        { srcFiles := [.valid "a/bar.txt"], panicCount1 := 0, srcResults := [],
          panicCount2 := 0, destResults := [] }).2.get_excluded_paths).1
      ≠ [.valid "a/bar.txt"] := by
  decide

/-- C2 amended: running `compare` twice with identical inputs yields identical
ComparisonOutcome (the outcome is a function of the pattern list and the run
environment only), but the engine's excluded-paths state is accumulated, not
reset per call: after a `compare` call `get_excluded_paths` returns the
previously stored paths followed by the paths skipped during that call, and
after a second identical call the skipped paths appear twice. -/
theorem C2_amended_idempotent_outcome_excluded_accumulates
    (cc : CopyConfirmer) (env : RunEnv) (q ex : List OsString)
    (he : enqueueSrc cc.excluded_pattern env.srcFiles = .ok (q, ex)) :
    ((cc.compare env).2.compare env).1 = (cc.compare env).1 ∧
    ((cc.compare env).2.get_excluded_paths).1 = cc.excluded_paths ++ ex ∧
    (((cc.compare env).2.compare env).2.get_excluded_paths).1
      = cc.excluded_paths ++ ex ++ ex := by
  have h1 := compare_eq_ok he
  have hpat : ((cc.compare env).2).excluded_pattern = cc.excluded_pattern :=
    compare_preserves_pattern cc env
  have he2 : enqueueSrc ((cc.compare env).2).excluded_pattern env.srcFiles
      = .ok (q, ex) := by rw [hpat]; exact he
  have h2 := compare_eq_ok he2
  refine ⟨?_, ?_, ?_⟩
  · rw [h2, h1]
  · rw [h1]
    rfl
  · rw [h2, h1]
    rfl

/-- Closed witness for the C2 amended theorem at a concrete engine and run. -/
theorem C2_amended_witness :
    enqueueSrc ((CopyConfirmer.new 1).add_excluded_pattern
        (.MatchEverywhere "bar")).excluded_pattern [OsString.valid "a/bar.txt"]
      = .ok ([], [.valid "a/bar.txt"]) ∧
    (((((CopyConfirmer.new 1).add_excluded_pattern
          (.MatchEverywhere "bar")).compare
        { srcFiles := [.valid "a/bar.txt"], panicCount1 := 0, srcResults := [],
          panicCount2 := 0, destResults := [] }).2.compare
        { srcFiles := [.valid "a/bar.txt"], panicCount1 := 0, srcResults := [],
          panicCount2 := 0, destResults := [] }).2.get_excluded_paths).1
      = [] ++ [.valid "a/bar.txt"] ++ [.valid "a/bar.txt"] :=
  ⟨by decide,
    (C2_amended_idempotent_outcome_excluded_accumulates
      ((CopyConfirmer.new 1).add_excluded_pattern (.MatchEverywhere "bar"))
      { srcFiles := [.valid "a/bar.txt"], panicCount1 := 0, srcResults := [],
        panicCount2 := 0, destResults := [] }
      [] [.valid "a/bar.txt"] (by decide)).2.2⟩

/-- C5: in either draining phase, the first tuple carrying an error result
makes `compare` return that error immediately as its terminal `Result` — no
continue-on-error, no retry, no partial outcome. -/
theorem C5_first_error_aborts (cc : CopyConfirmer) (env : RunEnv)
    (q ex : List OsString) (e : IoErr)
    (he : enqueueSrc cc.excluded_pattern env.srcFiles = .ok (q, ex))
    (h1 : env.panicCount1 = 0) (h2 : env.panicCount2 = 0) :
    (firstErr env.srcResults = some e → (cc.compare env).1 = .err ⟨e.msg⟩) ∧
    (∀ pending, drainSrc env.srcResults [] = .ok pending →
      firstErr env.destResults = some e → (cc.compare env).1 = .err ⟨e.msg⟩) := by
  have hc : (cc.compare env).1 = aggregate env := by rw [compare_eq_ok he]
  constructor
  · intro hfe
    rw [hc, aggregate_err_src h1 (firstErr_drainSrc hfe [])]
  · intro pending hds hfe
    rw [hc, aggregate_err_dest h1 h2 hds (firstErr_drainDest hfe (pending, []))]

/-- Closed witness for C5: a run whose source drain carries a read error, and
a run whose destination drain carries one. -/
theorem C5_first_error_aborts_witness :
    (((CopyConfirmer.new 1).compare
      { srcFiles := [.valid "s/a.txt"], panicCount1 := 0,
        srcResults := [(.valid "s/a.txt", .error ⟨"permission denied"⟩)],
        panicCount2 := 0, destResults := [] }).1
      = .err ⟨"permission denied"⟩) ∧
    (((CopyConfirmer.new 1).compare
      { srcFiles := [.valid "s/a.txt"], panicCount1 := 0,
        srcResults := [(.valid "s/a.txt", .ok "h1")], panicCount2 := 0,
        destResults := [(.valid "d/a.txt", .error ⟨"read error"⟩)] }).1
      = .err ⟨"read error"⟩) :=
  ⟨(C5_first_error_aborts (CopyConfirmer.new 1)
      { srcFiles := [.valid "s/a.txt"], panicCount1 := 0,
        srcResults := [(.valid "s/a.txt", .error ⟨"permission denied"⟩)],
        panicCount2 := 0, destResults := [] }
      [.valid "s/a.txt"] [] ⟨"permission denied"⟩
      (by decide) rfl rfl).1 rfl,
   (C5_first_error_aborts (CopyConfirmer.new 1)
      { srcFiles := [.valid "s/a.txt"], panicCount1 := 0,
        srcResults := [(.valid "s/a.txt", .ok "h1")], panicCount2 := 0,
        destResults := [(.valid "d/a.txt", .error ⟨"read error"⟩)] }
      [.valid "s/a.txt"] [] ⟨"read error"⟩
      (by decide) rfl rfl).2 [("h1", [.valid "s/a.txt"])] (by decide) rfl⟩

/-- C6: after both phases complete without error, the outcome is
`Ok(found_files)` iff the pending index is empty, and otherwise it is
`MissingFiles` of all paths remaining across the pending buckets, in bucket
iteration order then insertion order within a bucket (the flatten of the
bucket values) — not globally sorted. -/
theorem C6_final_classification (cc : CopyConfirmer) (env : RunEnv)
    (q ex : List OsString) (pending : HMap (List OsString))
    (pf : HMap (List OsString) × HMap FileFound)
    (he : enqueueSrc cc.excluded_pattern env.srcFiles = .ok (q, ex))
    (h1 : env.panicCount1 = 0) (h2 : env.panicCount2 = 0)
    (hds : drainSrc env.srcResults [] = .ok pending)
    (hdd : drainDest env.destResults (pending, []) = .ok pf) :
    ((cc.compare env).1 = .ok (.Ok pf.2) ↔ pf.1 = []) ∧
    (pf.1 ≠ [] → (cc.compare env).1 = .ok (.MissingFiles (pendingPaths pf.1))) := by
  have hc : (cc.compare env).1 = aggregate env := by rw [compare_eq_ok he]
  rw [hc, aggregate_eq h1 h2 hds hdd]
  by_cases hemp : pf.1.isEmpty
  · have hnil : pf.1 = [] := List.isEmpty_iff.mp hemp
    rw [if_pos hemp]
    exact ⟨⟨fun _ => hnil, fun _ => rfl⟩, fun hne => absurd hnil hne⟩
  · have hne : pf.1 ≠ [] := fun hn => hemp (List.isEmpty_iff.mpr hn)
    rw [if_neg hemp]
    constructor
    · constructor
      · intro hc2
        exact absurd (RunOutcome.ok.inj hc2).symm (by simp)
      · intro hn
        exact absurd hn hne
    · intro _
      rfl

/-- Closed witness for C6: a run with one matched and one unmatched source
file ends as `MissingFiles` of exactly the unmatched bucket contents; a fully
matched run ends as `Ok`. -/
theorem C6_final_classification_witness :
    (((CopyConfirmer.new 1).compare
      { srcFiles := [.valid "s/a.txt", .valid "s/b.txt"], panicCount1 := 0,
        srcResults := [(.valid "s/a.txt", .ok "h1"), (.valid "s/b.txt", .ok "h2")],
        panicCount2 := 0,
        destResults := [(.valid "d/a.txt", .ok "h1")] }).1
      = .ok (.MissingFiles [.valid "s/b.txt"])) ∧
    (((CopyConfirmer.new 1).compare
      { srcFiles := [.valid "s/a.txt"], panicCount1 := 0,
        srcResults := [(.valid "s/a.txt", .ok "h1")], panicCount2 := 0,
        destResults := [(.valid "d/a.txt", .ok "h1")] }).1
      = .ok (.Ok [("h1", ⟨[.valid "s/a.txt"], [.valid "d/a.txt"]⟩)])) := by
  constructor
  · exact (C6_final_classification (CopyConfirmer.new 1)
      { srcFiles := [.valid "s/a.txt", .valid "s/b.txt"], panicCount1 := 0,
        srcResults := [(.valid "s/a.txt", .ok "h1"), (.valid "s/b.txt", .ok "h2")],
        panicCount2 := 0,
        destResults := [(.valid "d/a.txt", .ok "h1")] }
      [.valid "s/a.txt", .valid "s/b.txt"] []
      [("h1", [.valid "s/a.txt"]), ("h2", [.valid "s/b.txt"])]
      ([("h2", [.valid "s/b.txt"])],
        [("h1", ⟨[.valid "s/a.txt"], [.valid "d/a.txt"]⟩)])
      (by decide) rfl rfl (by decide) (by decide)).2 (by decide)
  · exact (C6_final_classification (CopyConfirmer.new 1)
      { srcFiles := [.valid "s/a.txt"], panicCount1 := 0,
        srcResults := [(.valid "s/a.txt", .ok "h1")], panicCount2 := 0,
        destResults := [(.valid "d/a.txt", .ok "h1")] }
      [.valid "s/a.txt"] []
      [("h1", [.valid "s/a.txt"])]
      ([], [("h1", ⟨[.valid "s/a.txt"], [.valid "d/a.txt"]⟩)])
      (by decide) rfl rfl (by decide) (by decide)).1.mpr rfl

/-- C7: after each phase's quiescence point, a non-zero pool panic count makes
`compare` fail the whole comparison with the generic worker-fault error — a
fixed message independent of any drained results (no partial outcome) — and
such an error differs from any ReadFailure-derived `ConfirmerError` whose io
message differs from the fixed text. -/
theorem C7_worker_fault_generic_error (cc : CopyConfirmer) (env : RunEnv)
    (q ex : List OsString)
    (he : enqueueSrc cc.excluded_pattern env.srcFiles = .ok (q, ex)) :
    (env.panicCount1 > 0 → (cc.compare env).1 = .err ⟨workerFaultMsg⟩) ∧
    (∀ pending, env.panicCount1 = 0 →
      drainSrc env.srcResults [] = .ok pending → env.panicCount2 > 0 →
      (cc.compare env).1 = .err ⟨workerFaultMsg⟩) ∧
    (∀ e : IoErr, e.msg ≠ workerFaultMsg →
      (ConfirmerError.mk e.msg) ≠ ⟨workerFaultMsg⟩) := by
  have hc : (cc.compare env).1 = aggregate env := by rw [compare_eq_ok he]
  refine ⟨?_, ?_, ?_⟩
  · intro hp
    rw [hc, aggregate_panic1 hp]
  · intro pending h1 hds hp
    rw [hc, aggregate_panic2 h1 hds hp]
  · intro e hne hc2
    exact hne (ConfirmerError.mk.injEq .. ▸ congrArg ConfirmerError.msg hc2)

/-- Closed witness for C7: panic counts observed at each check point abort the
concrete runs with the generic worker-fault error. -/
theorem C7_worker_fault_witness :
    (((CopyConfirmer.new 1).compare
      { srcFiles := [.valid "s/a.txt"], panicCount1 := 1,
        srcResults := [], panicCount2 := 0, destResults := [] }).1
      = .err ⟨workerFaultMsg⟩) ∧
    (((CopyConfirmer.new 1).compare
      { srcFiles := [.valid "s/a.txt"], panicCount1 := 0,
        srcResults := [(.valid "s/a.txt", .ok "h1")], panicCount2 := 1,
        destResults := [(.valid "d/a.txt", .ok "h1")] }).1
      = .err ⟨workerFaultMsg⟩) :=
  ⟨(C7_worker_fault_generic_error (CopyConfirmer.new 1)
      { srcFiles := [.valid "s/a.txt"], panicCount1 := 1,
        srcResults := [], panicCount2 := 0, destResults := [] }
      [.valid "s/a.txt"] [] (by decide)).1 (by decide),
   (C7_worker_fault_generic_error (CopyConfirmer.new 1)
      { srcFiles := [.valid "s/a.txt"], panicCount1 := 0,
        srcResults := [(.valid "s/a.txt", .ok "h1")], panicCount2 := 1,
        destResults := [(.valid "d/a.txt", .ok "h1")] }
      [.valid "s/a.txt"] [] (by decide)).2.1
      [("h1", [.valid "s/a.txt"])] rfl (by decide) (by decide)⟩

/-- C9: with a non-empty exclusion-pattern list, a discovered source path
whose textual form is not valid UTF-8 makes `compare` panic through the
`.expect("Could not decode path string.")` inside `is_path_excluded` instead
of returning an error `Result`; with an empty pattern list `is_path_excluded`
is short-circuited away and no such panic can occur. -/
theorem C9_non_utf8_panic (cc : CopyConfirmer) (env : RunEnv) :
    (cc.excluded_pattern ≠ [] → (∃ n, OsString.invalid n ∈ env.srcFiles) →
      (cc.compare env).1 = .panicked "Could not decode path string.") ∧
    (cc.excluded_pattern = [] → ∀ m, (cc.compare env).1 ≠ .panicked m) := by
  constructor
  · intro hne hinv
    rw [compare_eq_panicked (enqueueSrc_error_of_invalid hne hinv)]
  · intro hnil m
    have hok := enqueueSrc_empty_pats_ok env.srcFiles
    have hc : (cc.compare env).1 = aggregate env := by
      rw [compare_eq_ok (by rw [hnil]; exact hok)]
    rw [hc]
    exact aggregate_not_panicked env m
/-- Closed witness for C9: a non-UTF-8 source path panics a patterned engine,
while the same walk under a pattern-free engine returns a `Result`. -/
theorem C9_non_utf8_panic_witness :
    ((((CopyConfirmer.new 1).add_excluded_pattern
        (.MatchEverywhere "bar")).compare
      { srcFiles := [.invalid 0], panicCount1 := 0, srcResults := [],
        panicCount2 := 0, destResults := [] }).1
      = .panicked "Could not decode path string.") ∧
    (((CopyConfirmer.new 1).compare
      { srcFiles := [.invalid 0], panicCount1 := 0, srcResults := [],
        panicCount2 := 0, destResults := [] }).1
      ≠ .panicked "Could not decode path string.") :=
  ⟨(C9_non_utf8_panic
      ((CopyConfirmer.new 1).add_excluded_pattern (.MatchEverywhere "bar"))
      { srcFiles := [.invalid 0], panicCount1 := 0, srcResults := [],
        panicCount2 := 0, destResults := [] }).1
      (by decide) ⟨0, by decide⟩,
   (C9_non_utf8_panic (CopyConfirmer.new 1)
      { srcFiles := [.invalid 0], panicCount1 := 0, srcResults := [],
        panicCount2 := 0, destResults := [] }).2 rfl
      "Could not decode path string."⟩

/-- Exactly one of three propositions holds. -/
abbrev exactlyOne (a b c : Prop) : Prop :=
  (a ∧ ¬b ∧ ¬c) ∨ (¬a ∧ b ∧ ¬c) ∨ (¬a ∧ ¬b ∧ c)

/-- C4: a source path matched by some exclusion pattern (prefix patterns match
when the textual form starts with the pattern string, substring patterns when
it occurs anywhere; list order with short-circuit) never appears in
MissingFiles (the remaining pending buckets), never appears in FoundIndex
(neither among source nor destination paths), and always appears in
`get_excluded_paths()` after the call; destination enumeration never consults
the patterns (`enqueueDest` is the identity on the discovered files). -/
theorem C4_excluded_path_isolation (cc : CopyConfirmer) (env : RunEnv)
    (q ex : List OsString) (pending : HMap (List OsString))
    (pf : HMap (List OsString) × HMap FileFound)
    (p : OsString) (s : String) (pat : ExcludePattern)
    (he : enqueueSrc cc.excluded_pattern env.srcFiles = .ok (q, ex))
    (hds : drainSrc env.srcResults [] = .ok pending)
    (hdd : drainDest env.destResults (pending, []) = .ok pf)
    (hsrcsub : ∀ r ∈ env.srcResults, r.1 ∈ q)
    (hp : p ∈ env.srcFiles) (hps : p.toStr = some s)
    (hpat : pat ∈ cc.excluded_pattern) (hm : patternMatches s pat = true)
    (hdp : p ∉ env.destResults.map Prod.fst) :
    p ∈ ex ∧
    p ∈ ((cc.compare env).2.get_excluded_paths).1 ∧
    p ∉ pendingPaths pf.1 ∧
    p ∉ foundSrcPaths pf.2 ∧
    p ∉ foundDestPaths pf.2 ∧
    (∀ fs : List OsString, enqueueDest fs = fs) := by
  obtain ⟨hq, hex⟩ := enqueueSrc_filter he
  have hemp : cc.excluded_pattern.isEmpty = false := by
    cases hcc : cc.excluded_pattern with
    | nil => rw [hcc] at hpat; exact absurd hpat (List.not_mem_nil pat)
    | cons a l => rfl
  have htest : exclTest cc.excluded_pattern p = true := by
    simp only [exclTest, hemp, Bool.not_false, Bool.true_and, is_path_excluded, hps]
    exact List.any_eq_true.mpr ⟨pat, hpat, hm⟩
  have hpex : p ∈ ex := by
    rw [hex]
    exact List.mem_filter.mpr ⟨hp, htest⟩
  have hpnq : p ∉ q := by
    rw [hq]
    intro hmem
    have := (List.mem_filter.mp hmem).2
    simp [htest] at this
  have hpnsrc : p ∉ env.srcResults.map Prod.fst := by
    intro hmem
    obtain ⟨r, hr, hr2⟩ := List.mem_map.mp hmem
    exact hpnq (hr2 ▸ hsrcsub r hr)
  have hndnil : (hmKeys ([] : HMap (List OsString))).Nodup := by simp [hmKeys]
  obtain ⟨hndp, hpermp⟩ := drainSrc_ok hds hndnil
  have hpnpending : p ∉ pendingPaths pending := by
    intro hmem
    exact hpnsrc (hpermp.mem_iff.mp hmem)
  have hnot_both : ¬(p ∈ pendingPaths pf.1 ∨ p ∈ foundSrcPaths pf.2) := by
    intro hmem
    rcases drainDest_srcPaths hdd p hmem with h | h
    · exact hpnpending h
    · simp [foundSrcPaths] at h
  have hpnfd : p ∉ foundDestPaths pf.2 := by
    intro hmem
    rcases drainDest_destPaths hdd p hmem with h | h
    · simp [foundDestPaths] at h
    · exact hdp h
  have hpexc : p ∈ ((cc.compare env).2.get_excluded_paths).1 := by
    rw [compare_eq_ok he]
    exact List.mem_append.mpr (Or.inr hpex)
  exact ⟨hpex, hpexc, fun h => hnot_both (Or.inl h),
    fun h => hnot_both (Or.inr h), hpnfd, fun fs => rfl⟩

/-- Closed witness for C4 at a concrete patterned run. -/
theorem C4_excluded_path_isolation_witness :
    patternMatches "a/bar.txt" (.MatchEverywhere "bar") = true ∧
    (OsString.valid "a/bar.txt" ∈ ([.valid "a/bar.txt"] : List OsString) ∧
     OsString.valid "a/bar.txt" ∈
       (((((CopyConfirmer.new 1).add_excluded_pattern
            (.MatchEverywhere "bar"))).compare
          { srcFiles := [.valid "a/bar.txt", .valid "a/keep.txt"],
            panicCount1 := 0,
            srcResults := [(.valid "a/keep.txt", .ok "h1")], panicCount2 := 0,
            destResults := [(.valid "d/keep.txt", .ok "h1")] }).2.get_excluded_paths).1 ∧
     OsString.valid "a/bar.txt" ∉ pendingPaths ([] : HMap (List OsString)) ∧
     OsString.valid "a/bar.txt" ∉ foundSrcPaths
       [("h1", ⟨[.valid "a/keep.txt"], [.valid "d/keep.txt"]⟩)] ∧
     OsString.valid "a/bar.txt" ∉ foundDestPaths
       [("h1", ⟨[.valid "a/keep.txt"], [.valid "d/keep.txt"]⟩)] ∧
     (∀ fs : List OsString, enqueueDest fs = fs)) :=
  ⟨by decide,
    C4_excluded_path_isolation
      ((CopyConfirmer.new 1).add_excluded_pattern (.MatchEverywhere "bar"))
      { srcFiles := [.valid "a/bar.txt", .valid "a/keep.txt"], panicCount1 := 0,
        srcResults := [(.valid "a/keep.txt", .ok "h1")], panicCount2 := 0,
        destResults := [(.valid "d/keep.txt", .ok "h1")] }
      [.valid "a/keep.txt"] [.valid "a/bar.txt"]
      [("h1", [.valid "a/keep.txt"])]
      ([], [("h1", ⟨[.valid "a/keep.txt"], [.valid "d/keep.txt"]⟩)])
      (.valid "a/bar.txt") "a/bar.txt" (.MatchEverywhere "bar")
      (by decide) (by decide) (by decide) (by decide) (by decide) rfl
      (by decide) (by decide) (by decide)⟩

/-- C3: for a comparison run that returns an outcome, every source path
discovered under the source root ends in exactly one of the three final
collections: the FoundIndex source paths (pending entries promoted on a
destination match), the remaining pending buckets (the MissingFiles paths),
or the paths excluded during the walk — never zero of them and never two.
The permutation hypothesis states that the drained source results are exactly
the enqueued files (in arbitrary arrival order), and distinct files are
assumed distinct paths (walkdir yields each path once). -/
theorem C3_source_path_partition (cc : CopyConfirmer) (env : RunEnv)
    (q ex : List OsString) (pending : HMap (List OsString))
    (pf : HMap (List OsString) × HMap FileFound) (r : ConfirmerResult)
    (he : enqueueSrc cc.excluded_pattern env.srcFiles = .ok (q, ex))
    (hds : drainSrc env.srcResults [] = .ok pending)
    (hdd : drainDest env.destResults (pending, []) = .ok pf)
    (hperm : (env.srcResults.map Prod.fst).Perm q)
    (hnd : env.srcFiles.Nodup)
    (hout : (cc.compare env).1 = .ok r) :
    ∀ p ∈ env.srcFiles,
      exactlyOne (p ∈ foundSrcPaths pf.2) (p ∈ pendingPaths pf.1) (p ∈ ex) := by
  intro p hp
  obtain ⟨hq, hex⟩ := enqueueSrc_filter he
  have hqnd : q.Nodup := hq ▸ hnd.filter _
  have hndnil : (hmKeys ([] : HMap (List OsString))).Nodup := by simp [hmKeys]
  obtain ⟨hndp, hpermp⟩ := drainSrc_ok hds hndnil
  have hpq : (pendingPaths pending).Perm q := by
    refine List.Perm.trans ?_ hperm
    simpa using hpermp
  have hdisj0 : ∀ k, k ∈ hmKeys pending → k ∉ hmKeys ([] : HMap FileFound) := by
    intro k _ hk
    simp [hmKeys] at hk
  have hL := drainDest_ok hdd hndp hdisj0
  have hLq : (pendingPaths pf.1 ++ foundSrcPaths pf.2).Perm q := by
    refine List.Perm.trans hL ?_
    simpa [foundSrcPaths] using hpq
  have hLnd : (pendingPaths pf.1 ++ foundSrcPaths pf.2).Nodup :=
    hLq.nodup_iff.mpr hqnd
  obtain ⟨-, -, hdisjL⟩ := List.nodup_append.mp hLnd
  cases hb : exclTest cc.excluded_pattern p with
  | true =>
    have hpex : p ∈ ex := by
      rw [hex]
      exact List.mem_filter.mpr ⟨hp, hb⟩
    have hpnq : p ∉ q := by
      rw [hq]
      intro hmem
      have := (List.mem_filter.mp hmem).2
      simp [hb] at this
    have hnotL : p ∉ pendingPaths pf.1 ++ foundSrcPaths pf.2 := by
      intro hmem
      exact hpnq (hLq.mem_iff.mp hmem)
    exact Or.inr (Or.inr ⟨fun hf => hnotL (List.mem_append.mpr (Or.inr hf)),
      fun hm => hnotL (List.mem_append.mpr (Or.inl hm)), hpex⟩)
  | false =>
    have hpq2 : p ∈ q := by
      rw [hq]
      exact List.mem_filter.mpr ⟨hp, by simp [hb]⟩
    have hpnex : p ∉ ex := by
      rw [hex]
      intro hmem
      have := (List.mem_filter.mp hmem).2
      simp [hb] at this
    have hpL : p ∈ pendingPaths pf.1 ++ foundSrcPaths pf.2 := hLq.mem_iff.mpr hpq2
    rcases List.mem_append.mp hpL with hm | hf
    · exact Or.inr (Or.inl ⟨fun hff => hdisjL hm hff, hm, hpnex⟩)
    · exact Or.inl ⟨hf, fun hmm => hdisjL hmm hf, hpnex⟩

/-- Closed witness for C3: a run with an excluded file, a matched file and a
missing file partitions the three source paths into the three collections. -/
theorem C3_source_path_partition_witness :
    (((((CopyConfirmer.new 1).add_excluded_pattern
          (.MatchEverywhere "bar"))).compare
      { srcFiles := [.valid "a/bar.txt", .valid "a/keep.txt", .valid "a/lost.txt"],
        panicCount1 := 0,
        srcResults := [(.valid "a/keep.txt", .ok "h1"),
                       (.valid "a/lost.txt", .ok "h2")],
        panicCount2 := 0,
        destResults := [(.valid "d/keep.txt", .ok "h1")] }).1
      = .ok (.MissingFiles [.valid "a/lost.txt"])) ∧
    (∀ p ∈ ([.valid "a/bar.txt", .valid "a/keep.txt", .valid "a/lost.txt"] :
        List OsString),
      exactlyOne
        (p ∈ foundSrcPaths [("h1", ⟨[.valid "a/keep.txt"], [.valid "d/keep.txt"]⟩)])
        (p ∈ pendingPaths [("h2", [.valid "a/lost.txt"])])
        (p ∈ ([.valid "a/bar.txt"] : List OsString))) :=
  ⟨by decide,
    C3_source_path_partition
      ((CopyConfirmer.new 1).add_excluded_pattern (.MatchEverywhere "bar"))
      { srcFiles := [.valid "a/bar.txt", .valid "a/keep.txt", .valid "a/lost.txt"],
        panicCount1 := 0,
        srcResults := [(.valid "a/keep.txt", .ok "h1"),
                       (.valid "a/lost.txt", .ok "h2")],
        panicCount2 := 0,
        destResults := [(.valid "d/keep.txt", .ok "h1")] }
      [.valid "a/keep.txt", .valid "a/lost.txt"]
      [.valid "a/bar.txt"]
      [("h1", [.valid "a/keep.txt"]), ("h2", [.valid "a/lost.txt"])]
      ([("h2", [.valid "a/lost.txt"])],
        [("h1", ⟨[.valid "a/keep.txt"], [.valid "d/keep.txt"]⟩)])
      (.MissingFiles [.valid "a/lost.txt"])
      (by decide) (by decide) (by decide) (by decide) (by decide) (by decide)⟩

/-- C8: `get_blake2_checksum` either returns a checksum or fails with the io
error; on success the digest depends only on the file's byte content —
identical output for identical bytes regardless of how the successive reads
chunk the content — and it is a 512-bit-class (64-byte) digest rendered as a
128-character lowercase-hexadecimal string. -/
theorem C8_checksum_pure_hex {content : List Nat}
    {reads1 reads2 : List (Except IoErr (List Nat))} {e : IoErr}
    (hc1 : ChunkingOf content reads1) (hc2 : ChunkingOf content reads2) :
    get_blake2_checksum (.ok ()) reads1
      = .ok (toLowerHex (blake2Final content)) ∧
    get_blake2_checksum (.ok ()) reads1 = get_blake2_checksum (.ok ()) reads2 ∧
    get_blake2_checksum (.error e) reads1 = .error e ∧
    (toLowerHex (blake2Final content)).length = 128 ∧
    (∀ c ∈ (toLowerHex (blake2Final content)).data, isLowerHexDigit c = true) := by
  have hrun : ∀ {reads : List (Except IoErr (List Nat))}, ChunkingOf content reads →
      get_blake2_checksum (.ok ()) reads = .ok (toLowerHex (blake2Final content)) := by
    intro reads hc
    obtain ⟨chunks, hne, hflat, hrd⟩ := hc
    subst hrd
    have := readLoop_chunks chunks [] (fun c hc => (hne c hc).1)
    simp only [List.nil_append, hflat] at this
    simp [get_blake2_checksum, this, Except.map]
  refine ⟨hrun hc1, ?_, rfl, ?_, toLowerHex_chars blake2Final_bytes⟩
  · rw [hrun hc1, hrun hc2]
  · rw [toLowerHex_length, blake2Final_length]

/-- Closed witness for C8: two different chunkings of the same two-byte file
give the same 128-character lowercase digest, and a failed open propagates the
io error. -/
theorem C8_checksum_pure_hex_witness :
    ChunkingOf [0, 171] [Except.ok [0], Except.ok [171]] ∧
    ChunkingOf [0, 171] [Except.ok [0, 171]] ∧
    (get_blake2_checksum (.ok ()) [Except.ok [0], Except.ok [171]]
        = .ok (toLowerHex (blake2Final [0, 171])) ∧
     get_blake2_checksum (.ok ()) [Except.ok [0], Except.ok [171]]
        = get_blake2_checksum (.ok ()) [Except.ok [0, 171]] ∧
     get_blake2_checksum (.error ⟨"No such file or directory"⟩)
        [Except.ok [0], Except.ok [171]] = .error ⟨"No such file or directory"⟩ ∧
     (toLowerHex (blake2Final [0, 171])).length = 128 ∧
     (∀ c ∈ (toLowerHex (blake2Final [0, 171])).data, isLowerHexDigit c = true)) :=
  have h1 : ChunkingOf [0, 171] [Except.ok [0], Except.ok [171]] :=
    ⟨[[0], [171]], by decide, rfl, rfl⟩
  have h2 : ChunkingOf [0, 171] [Except.ok [0, 171]] :=
    ⟨[[0, 171]], by decide, rfl, rfl⟩
  ⟨h1, h2, C8_checksum_pure_hex (e := ⟨"No such file or directory"⟩) h1 h2⟩
